import Mathlib

/-!
# Verification of the Framizer frame sequencer

Shallow embedding of `src/main.rs` of the Framizer repository.

The program converts a stream of timestamped traces into a contiguous
sequence of fixed-length (512-tick) frames.  `main` keeps a single
watermark `frame_timestamp` (initially 0) and, for each trace read:

* drops the trace (with a diagnostic) when `trace.timestamp < frame_timestamp`;
* emits empty frames while `trace.timestamp >= frame_timestamp + FRAME_LENGTH`;
* emits a single frame when the whole trace fits in the current window,
  otherwise a head frame followed by continuation frames.

Rust machine integers are modelled as `Nat`; the narrowing casts
(`as u16`, `as u32`) are modelled by explicit `% 2 ^ 16` / `% 2 ^ 32`
at the places where they occur in the source.  Emission of frames to
the sink is modelled by returning the list of frames in emission order,
and the `println!` diagnostic of the drop path by an `Option` field of
the result.  The byte-level trace reader `read_next_trace` is modelled
over a list of bytes.
-/

namespace Framizer

/-- `const FRAME_LENGTH: u64 = 512` — ticks in a window. -/
def FRAME_LENGTH : Nat := 512

/-- `struct Trace`: coarse timestamp plus data samples. -/
structure Trace where
  timestamp : Nat
  data : List Nat
deriving DecidableEq

/-- `struct Frame`: frame start, sample count, fine-time offset, samples.
`data_size` is a `u32` and `data_offset` a `u16` in the source; the
narrowing casts are applied (as `% 2 ^ 32` / `% 2 ^ 16`) where the source
performs them. -/
structure Frame where
  frame_start : Nat
  data_size : Nat
  data_offset : Nat
  data : List Nat
deriving DecidableEq

/-- `Frame::new(start)` — an empty frame at the given start. -/
def Frame.new (start : Nat) : Frame :=
  { frame_start := start, data_size := 0, data_offset := 0, data := [] }

/-- The gap-filling loop of `main` (lines 76–84): the empty frames written
while `trace.timestamp >= frame_timestamp + FRAME_LENGTH`, in emission
order.  `t` is the trace timestamp, `W` the current watermark. -/
def gapFrames (t W : Nat) : List Frame :=
  if t ≥ W + FRAME_LENGTH then Frame.new W :: gapFrames t (W + FRAME_LENGTH)
  else []
termination_by t - W
decreasing_by
  simp only [FRAME_LENGTH] at *
  omega

/-- The value of `frame_timestamp` after the gap-filling loop of `main`. -/
def gapWatermark (t W : Nat) : Nat :=
  if t ≥ W + FRAME_LENGTH then gapWatermark t (W + FRAME_LENGTH)
  else W
termination_by t - W
decreasing_by
  simp only [FRAME_LENGTH] at *
  omega

/-- The continuation (overflow) loop of `main` (lines 119–137): starting
from position `cursor` in the trace samples `data` and watermark `W`,
returns the continuation frames in emission order together with the final
watermark.  Each frame carries `data_offset = 0` and its `data_size` is
stored through the `as u32` cast of the source. -/
def contLoop (data : List Nat) (cursor W : Nat) : List Frame × Nat :=
  if h : cursor < data.length then
    if hbig : data.length - cursor > FRAME_LENGTH then
      let f : Frame :=
        { frame_start := W, data_size := FRAME_LENGTH % 2 ^ 32,
          data_offset := 0, data := (data.drop cursor).take FRAME_LENGTH }
      let r := contLoop data (cursor + FRAME_LENGTH % 2 ^ 32) (W + FRAME_LENGTH)
      (f :: r.1, r.2)
    else
      let f : Frame :=
        { frame_start := W, data_size := (data.length - cursor) % 2 ^ 32,
          data_offset := 0, data := data.drop cursor }
      let r := contLoop data (cursor + (data.length - cursor) % 2 ^ 32)
        (W + FRAME_LENGTH)
      (f :: r.1, r.2)
  else ([], W)
termination_by data.length - cursor
decreasing_by
  · simp only [FRAME_LENGTH] at *
    omega
  · simp only [FRAME_LENGTH] at *
    have hle : data.length - cursor < 2 ^ 32 := by omega
    rw [Nat.mod_eq_of_lt hle]
    omega

/-- Result of processing one trace: the frames written (in emission
order), the new watermark, and the drop diagnostic, when printed, as the
pair (dropped timestamp, watermark). -/
structure FeedResult where
  frames : List Frame
  watermark : Nat
  dropped : Option (Nat × Nat)
deriving DecidableEq

/-- One iteration of the `while let` loop of `main` (lines 66–139): process
one trace against watermark `W`.  Mirrors the source: staleness check,
gap filling, then the single-window branch
(`trace.data.len() + data_offset < FRAME_LENGTH`) or the multi-window
branch (head frame, then the continuation loop). -/
def feed (W : Nat) (t : Trace) : FeedResult :=
  if t.timestamp < W then
    { frames := [], watermark := W, dropped := some (t.timestamp, W) }
  else
    let gaps := gapFrames t.timestamp W
    let W1 := gapWatermark t.timestamp W
    let offset := t.timestamp - W1
    if t.data.length + offset < FRAME_LENGTH then
      { frames := gaps ++
          [{ frame_start := W1, data_size := t.data.length % 2 ^ 32,
             data_offset := offset % 2 ^ 16, data := t.data }],
        watermark := W1 + FRAME_LENGTH, dropped := none }
    else
      let headSize := (FRAME_LENGTH - offset) % 2 ^ 32
      let head : Frame :=
        { frame_start := W1, data_size := headSize,
          data_offset := offset % 2 ^ 16, data := t.data.take headSize }
      let r := contLoop t.data headSize (W1 + FRAME_LENGTH)
      { frames := gaps ++ head :: r.1, watermark := r.2, dropped := none }

/-- The whole driving loop of `main`, starting from watermark `W`, over a
list of input traces: all frames written in order, and the final
watermark. -/
def runFeed (W : Nat) : List Trace → List Frame × Nat
  | [] => ([], W)
  | t :: ts =>
    let r := feed W t
    let rest := runFeed r.watermark ts
    (r.frames ++ rest.1, rest.2)

/-! ## The trace reader (`read_next_trace`, lines 147–190)

The input stream is modelled as a list of bytes (natural numbers).
`read_exact n` succeeds exactly when at least `n` bytes remain, mirroring
`Read::read_exact`, whose only failure mode on a file is
`UnexpectedEof`; `read_next_trace` returns `none` on any such failure,
exactly as every `ErrorKind::UnexpectedEof` branch of the source
`return None`.  Little-endian decoding of a byte list is `leValue`. -/

/-- Little-endian value of a byte list (`uXX::from_le_bytes`). -/
def leValue : List Nat → Nat
  | [] => 0
  | b :: bs => b + 256 * leValue bs

/-- `reader.read_exact(&mut buf)` for a buffer of `n` bytes over a byte
list: `none` when fewer than `n` bytes remain (the `UnexpectedEof` case),
otherwise the `n` bytes read and the rest of the stream. -/
def read_exact (n : Nat) (bytes : List Nat) : Option (List Nat × List Nat) :=
  if bytes.length < n then none else some (bytes.take n, bytes.drop n)

/-- The sample-reading loop of `read_next_trace` (lines 173–186): reads
`count` two-byte little-endian samples, `none` on truncation. -/
def readSamples : Nat → List Nat → Option (List Nat × List Nat)
  | 0, bytes => some ([], bytes)
  | count + 1, bytes =>
    match read_exact 2 bytes with
    | none => none
    | some (sb, rest) =>
      match readSamples count rest with
      | none => none
      | some (ss, rest2) => some (leValue sb :: ss, rest2)

/-- `read_next_trace`: an 8-byte little-endian timestamp, a 4-byte
little-endian sample count, then that many 2-byte samples; `none` as
soon as any read hits end of stream. -/
def read_next_trace (bytes : List Nat) : Option (Trace × List Nat) :=
  match read_exact 8 bytes with
  | none => none
  | some (tsb, r1) =>
    match read_exact 4 r1 with
    | none => none
    | some (csb, r2) =>
      match readSamples (leValue csb) r2 with
      | none => none
      | some (samples, r3) => some ({ timestamp := leValue tsb, data := samples }, r3)

/-! ## Lemmas about the gap-filling loop -/

theorem gapWatermark_ge (t W : Nat) : W ≤ gapWatermark t W := by
  rw [gapWatermark]
  by_cases h : t ≥ W + FRAME_LENGTH
  · rw [if_pos h]
    have ih := gapWatermark_ge t (W + FRAME_LENGTH)
    omega
  · rw [if_neg h]
termination_by t - W
decreasing_by
  simp only [FRAME_LENGTH] at *
  omega

theorem gapWatermark_le (t W : Nat) (h : W ≤ t) : gapWatermark t W ≤ t := by
  rw [gapWatermark]
  by_cases h1 : t ≥ W + FRAME_LENGTH
  · rw [if_pos h1]
    exact gapWatermark_le t (W + FRAME_LENGTH) (by omega)
  · rw [if_neg h1]
    exact h
termination_by t - W
decreasing_by
  simp only [FRAME_LENGTH] at *
  omega

theorem gapWatermark_lt (t W : Nat) : t < gapWatermark t W + FRAME_LENGTH := by
  rw [gapWatermark]
  by_cases h : t ≥ W + FRAME_LENGTH
  · rw [if_pos h]
    exact gapWatermark_lt t (W + FRAME_LENGTH)
  · rw [if_neg h]
    omega
termination_by t - W
decreasing_by
  simp only [FRAME_LENGTH] at *
  omega

theorem gapFrames_length (t W : Nat) :
    (gapFrames t W).length = (t - W) / FRAME_LENGTH := by
  have hF : FRAME_LENGTH = 512 := rfl
  rw [gapFrames]
  by_cases h : t ≥ W + FRAME_LENGTH
  · rw [if_pos h, List.length_cons, gapFrames_length t (W + FRAME_LENGTH)]
    have h512 : 0 < FRAME_LENGTH := by omega
    have hle : FRAME_LENGTH ≤ t - W := by omega
    rw [Nat.div_eq_sub_div h512 hle]
    have hsub : t - (W + FRAME_LENGTH) = t - W - FRAME_LENGTH := by omega
    rw [hsub]
  · rw [if_neg h, List.length_nil]
    have hlt : t - W < FRAME_LENGTH := by omega
    rw [Nat.div_eq_of_lt hlt]
termination_by t - W
decreasing_by
  simp only [FRAME_LENGTH] at *
  omega

theorem gapWatermark_eq (t W : Nat) :
    gapWatermark t W = W + FRAME_LENGTH * (gapFrames t W).length := by
  rw [gapFrames, gapWatermark]
  by_cases h : t ≥ W + FRAME_LENGTH
  · rw [if_pos h, if_pos h, List.length_cons,
      gapWatermark_eq t (W + FRAME_LENGTH)]
    ring
  · rw [if_neg h, if_neg h, List.length_nil]
    simp
termination_by t - W
decreasing_by
  simp only [FRAME_LENGTH] at *
  omega

/-- The arithmetic sequence of frame starts: `W, W + 512, …`, `n` terms. -/
def arith (W n : Nat) : List Nat :=
  (List.range n).map (fun i => W + FRAME_LENGTH * i)

theorem arith_zero (W : Nat) : arith W 0 = [] := rfl

theorem arith_succ (W n : Nat) :
    arith W (n + 1) = W :: arith (W + FRAME_LENGTH) n := by
  unfold arith
  rw [List.range_succ_eq_map, List.map_cons, List.map_map]
  congr 1
  simp only [List.map_inj_left, List.mem_range, Function.comp_apply,
    Nat.succ_eq_add_one, Nat.mul_add, Nat.mul_one]
  intro a ha
  omega

theorem arith_length (W n : Nat) : (arith W n).length = n := by
  simp [arith]

theorem arith_append (W a b : Nat) :
    arith W (a + b) = arith W a ++ arith (W + FRAME_LENGTH * a) b := by
  induction a generalizing W with
  | zero => simp [arith_zero]
  | succ a ih =>
    have hadd : a + 1 + b = (a + b) + 1 := by omega
    rw [hadd, arith_succ, arith_succ, ih, List.cons_append]
    have harr : W + FRAME_LENGTH + FRAME_LENGTH * a
        = W + FRAME_LENGTH * (a + 1) := by ring
    rw [harr]

theorem gapFrames_eq_map (t W : Nat) :
    gapFrames t W =
      (List.range ((t - W) / FRAME_LENGTH)).map
        (fun i => Frame.new (W + FRAME_LENGTH * i)) := by
  have hF : FRAME_LENGTH = 512 := rfl
  by_cases h : t ≥ W + FRAME_LENGTH
  · rw [gapFrames, if_pos h]
    have h512 : 0 < FRAME_LENGTH := by omega
    have hle : FRAME_LENGTH ≤ t - W := by omega
    rw [Nat.div_eq_sub_div h512 hle, List.range_succ_eq_map,
      List.map_cons, List.map_map]
    congr 1
    rw [gapFrames_eq_map t (W + FRAME_LENGTH)]
    have hsub : t - (W + FRAME_LENGTH) = t - W - FRAME_LENGTH := by omega
    rw [hsub]
    simp only [List.map_inj_left, List.mem_range, Function.comp_apply,
      Frame.new, Frame.mk.injEq, Nat.succ_eq_add_one, Nat.mul_add,
      Nat.mul_one, and_true, true_and, eq_self_iff_true]
    intro a ha
    omega
  · rw [gapFrames, if_neg h]
    have hlt : t - W < FRAME_LENGTH := by omega
    rw [Nat.div_eq_of_lt hlt]
    simp
termination_by t - W
decreasing_by
  simp only [FRAME_LENGTH] at *
  omega

theorem gapFrames_starts (t W : Nat) :
    (gapFrames t W).map (fun f => f.frame_start)
      = arith W (gapFrames t W).length := by
  rw [gapFrames_eq_map t W, List.map_map, List.length_map,
    List.length_range, arith]
  congr 1

/-! ## Lemmas about the continuation loop -/

theorem contLoop_final (data : List Nat) (cursor W : Nat) :
    (contLoop data cursor W).2
      = W + FRAME_LENGTH * (contLoop data cursor W).1.length := by
  rw [contLoop]
  by_cases h : cursor < data.length
  · by_cases hbig : data.length - cursor > FRAME_LENGTH
    · rw [dif_pos h, dif_pos hbig]
      have ih := contLoop_final data (cursor + FRAME_LENGTH % 2 ^ 32)
        (W + FRAME_LENGTH)
      simp only [List.length_cons]
      rw [ih]
      ring
    · rw [dif_pos h, dif_neg hbig]
      have ih := contLoop_final data
        (cursor + (data.length - cursor) % 2 ^ 32) (W + FRAME_LENGTH)
      simp only [List.length_cons]
      rw [ih]
      ring
  · rw [dif_neg h]
    simp
termination_by data.length - cursor
decreasing_by
  · simp only [FRAME_LENGTH] at *
    omega
  · simp only [FRAME_LENGTH] at *
    omega

theorem contLoop_starts (data : List Nat) (cursor W : Nat) :
    (contLoop data cursor W).1.map (fun f => f.frame_start)
      = arith W (contLoop data cursor W).1.length := by
  rw [contLoop]
  by_cases h : cursor < data.length
  · by_cases hbig : data.length - cursor > FRAME_LENGTH
    · rw [dif_pos h, dif_pos hbig]
      have ih := contLoop_starts data (cursor + FRAME_LENGTH % 2 ^ 32)
        (W + FRAME_LENGTH)
      simp only [List.map_cons, List.length_cons]
      rw [ih, arith_succ]
    · rw [dif_pos h, dif_neg hbig]
      have ih := contLoop_starts data
        (cursor + (data.length - cursor) % 2 ^ 32) (W + FRAME_LENGTH)
      simp only [List.map_cons, List.length_cons]
      rw [ih, arith_succ]
  · rw [dif_neg h]
    simp [arith_zero]
termination_by data.length - cursor
decreasing_by
  · simp only [FRAME_LENGTH] at *
    omega
  · simp only [FRAME_LENGTH] at *
    omega

theorem contLoop_flatten (data : List Nat) (cursor W : Nat) :
    ((contLoop data cursor W).1.map (fun f => f.data)).flatten
      = data.drop cursor := by
  rw [contLoop]
  by_cases h : cursor < data.length
  · by_cases hbig : data.length - cursor > FRAME_LENGTH
    · rw [dif_pos h, dif_pos hbig]
      have ih := contLoop_flatten data (cursor + FRAME_LENGTH % 2 ^ 32)
        (W + FRAME_LENGTH)
      simp only [List.map_cons, List.flatten_cons]
      rw [ih]
      have hmod : FRAME_LENGTH % 2 ^ 32 = FRAME_LENGTH := by
        simp only [FRAME_LENGTH]
        omega
      rw [hmod]
      have hdd : data.drop (cursor + FRAME_LENGTH)
          = (data.drop cursor).drop FRAME_LENGTH := by
        rw [List.drop_drop]
      rw [hdd]
      exact List.take_append_drop FRAME_LENGTH (data.drop cursor)
    · rw [dif_pos h, dif_neg hbig]
      have ih := contLoop_flatten data
        (cursor + (data.length - cursor) % 2 ^ 32) (W + FRAME_LENGTH)
      simp only [List.map_cons, List.flatten_cons]
      rw [ih]
      have hmod : (data.length - cursor) % 2 ^ 32 = data.length - cursor := by
        simp only [FRAME_LENGTH] at hbig
        omega
      rw [hmod]
      have hc : cursor + (data.length - cursor) = data.length := by omega
      rw [hc, List.drop_length, List.append_nil]
  · rw [dif_neg h]
    have hge : data.length ≤ cursor := by omega
    simp [List.drop_eq_nil_of_le hge]
termination_by data.length - cursor
decreasing_by
  · simp only [FRAME_LENGTH] at *
    omega
  · simp only [FRAME_LENGTH] at *
    omega

theorem contLoop_length (data : List Nat) (cursor W : Nat) :
    (contLoop data cursor W).1.length
      = (data.length - cursor + (FRAME_LENGTH - 1)) / FRAME_LENGTH := by
  rw [contLoop]
  by_cases h : cursor < data.length
  · by_cases hbig : data.length - cursor > FRAME_LENGTH
    · rw [dif_pos h, dif_pos hbig]
      have ih := contLoop_length data (cursor + FRAME_LENGTH % 2 ^ 32)
        (W + FRAME_LENGTH)
      simp only [List.length_cons]
      rw [ih]
      simp only [FRAME_LENGTH] at *
      omega
    · rw [dif_pos h, dif_neg hbig]
      have ih := contLoop_length data
        (cursor + (data.length - cursor) % 2 ^ 32) (W + FRAME_LENGTH)
      simp only [List.length_cons]
      rw [ih]
      simp only [FRAME_LENGTH] at *
      omega
  · rw [dif_neg h]
    simp only [List.length_nil]
    simp only [FRAME_LENGTH] at *
    omega
termination_by data.length - cursor
decreasing_by
  · simp only [FRAME_LENGTH] at *
    omega
  · simp only [FRAME_LENGTH] at *
    omega

theorem contLoop_mem (data : List Nat) (cursor W : Nat) :
    ∀ f ∈ (contLoop data cursor W).1,
      f.data_offset = 0 ∧ 1 ≤ f.data_size ∧ f.data_size ≤ FRAME_LENGTH ∧
        f.data.length = f.data_size := by
  rw [contLoop]
  by_cases h : cursor < data.length
  · by_cases hbig : data.length - cursor > FRAME_LENGTH
    · rw [dif_pos h, dif_pos hbig]
      have ih := contLoop_mem data (cursor + FRAME_LENGTH % 2 ^ 32)
        (W + FRAME_LENGTH)
      simp only [List.mem_cons]
      rintro f (rfl | hf)
      · refine ⟨rfl, ?_, ?_, ?_⟩ <;>
          simp only [FRAME_LENGTH, List.length_take, List.length_drop]
            at hbig ⊢ <;>
          omega
      · exact ih f hf
    · rw [dif_pos h, dif_neg hbig]
      have ih := contLoop_mem data
        (cursor + (data.length - cursor) % 2 ^ 32) (W + FRAME_LENGTH)
      simp only [List.mem_cons]
      rintro f (rfl | hf)
      · refine ⟨rfl, ?_, ?_, ?_⟩ <;>
          simp only [FRAME_LENGTH, List.length_take, List.length_drop]
            at hbig ⊢ <;>
          omega
      · exact ih f hf
  · rw [dif_neg h]
    simp
termination_by data.length - cursor
decreasing_by
  · simp only [FRAME_LENGTH] at *
    omega
  · simp only [FRAME_LENGTH] at *
    omega

/-! ## Lemmas about `feed` -/

theorem gapFrames_mem (t W : Nat) :
    ∀ f ∈ gapFrames t W,
      f.data_size = 0 ∧ f.data_offset = 0 ∧ f.data = [] := by
  rw [gapFrames_eq_map]
  intro f hf
  rcases List.mem_map.mp hf with ⟨i, _, rfl⟩
  exact ⟨rfl, rfl, rfl⟩

theorem gapFrames_data_nil (t W : Nat) :
    ((gapFrames t W).map (fun f => f.data)).flatten = [] := by
  rw [List.flatten_eq_nil_iff]
  intro l hl
  rcases List.mem_map.mp hl with ⟨f, hf, rfl⟩
  exact (gapFrames_mem t W f hf).2.2

/-- The staleness branch of `feed` (lines 71–74 of the source). -/
theorem feed_drop (W : Nat) (t : Trace) (h : t.timestamp < W) :
    feed W t = { frames := [], watermark := W,
                 dropped := some (t.timestamp, W) } := by
  rw [feed, if_pos h]

/-- The single-window branch of `feed` (lines 89–101 of the source). -/
theorem feed_accepted_single (W : Nat) (t : Trace) (hW : W ≤ t.timestamp)
    (hfit : t.data.length + (t.timestamp - gapWatermark t.timestamp W)
      < FRAME_LENGTH) :
    feed W t =
      { frames := gapFrames t.timestamp W ++
          [{ frame_start := gapWatermark t.timestamp W,
             data_size := t.data.length % 2 ^ 32,
             data_offset := (t.timestamp - gapWatermark t.timestamp W) % 2 ^ 16,
             data := t.data }],
        watermark := gapWatermark t.timestamp W + FRAME_LENGTH,
        dropped := none } := by
  rw [feed, if_neg (Nat.not_lt.mpr hW)]
  simp only []
  rw [if_pos hfit]

/-- The multi-window branch of `feed` (lines 102–137 of the source). -/
theorem feed_accepted_multi (W : Nat) (t : Trace) (hW : W ≤ t.timestamp)
    (hfit : ¬ t.data.length + (t.timestamp - gapWatermark t.timestamp W)
      < FRAME_LENGTH) :
    feed W t =
      { frames := gapFrames t.timestamp W ++
          { frame_start := gapWatermark t.timestamp W,
            data_size := (FRAME_LENGTH
              - (t.timestamp - gapWatermark t.timestamp W)) % 2 ^ 32,
            data_offset := (t.timestamp - gapWatermark t.timestamp W) % 2 ^ 16,
            data := t.data.take ((FRAME_LENGTH
              - (t.timestamp - gapWatermark t.timestamp W)) % 2 ^ 32) } ::
          (contLoop t.data
            ((FRAME_LENGTH - (t.timestamp - gapWatermark t.timestamp W))
              % 2 ^ 32)
            (gapWatermark t.timestamp W + FRAME_LENGTH)).1,
        watermark := (contLoop t.data
          ((FRAME_LENGTH - (t.timestamp - gapWatermark t.timestamp W))
            % 2 ^ 32)
          (gapWatermark t.timestamp W + FRAME_LENGTH)).2,
        dropped := none } := by
  rw [feed, if_neg (Nat.not_lt.mpr hW)]
  simp only []
  rw [if_neg hfit]

/-- After gap filling the offset is inside the window. -/
theorem offset_lt (W : Nat) (t : Trace) :
    t.timestamp - gapWatermark t.timestamp W < FRAME_LENGTH := by
  have h := gapWatermark_lt t.timestamp W
  have hF : FRAME_LENGTH = 512 := rfl
  omega

theorem feed_flatten (W : Nat) (t : Trace) (hW : W ≤ t.timestamp) :
    (((feed W t).frames).map (fun f => f.data)).flatten = t.data := by
  by_cases hfit : t.data.length + (t.timestamp - gapWatermark t.timestamp W)
      < FRAME_LENGTH
  · rw [feed_accepted_single W t hW hfit]
    simp only [List.map_append, List.flatten_append, gapFrames_data_nil,
      List.nil_append, List.map_cons, List.map_nil, List.flatten_cons,
      List.flatten_nil, List.append_nil]
  · rw [feed_accepted_multi W t hW hfit]
    simp only [List.map_append, List.flatten_append, gapFrames_data_nil,
      List.nil_append, List.map_cons, List.flatten_cons]
    rw [contLoop_flatten]
    exact List.take_append_drop _ t.data

theorem feed_starts (W : Nat) (t : Trace) :
    (feed W t).frames.map (fun f => f.frame_start)
        = arith W (feed W t).frames.length ∧
      (feed W t).watermark = W + FRAME_LENGTH * (feed W t).frames.length := by
  by_cases hW : t.timestamp < W
  · rw [feed_drop W t hW]
    simp [arith_zero]
  · have hW' : W ≤ t.timestamp := by omega
    have hg := gapFrames_starts t.timestamp W
    have hgw := gapWatermark_eq t.timestamp W
    by_cases hfit : t.data.length
        + (t.timestamp - gapWatermark t.timestamp W) < FRAME_LENGTH
    · rw [feed_accepted_single W t hW' hfit]
      simp only [List.map_append, List.length_append, List.map_cons,
        List.map_nil, List.length_cons, List.length_nil]
      constructor
      · rw [hg, hgw, arith_append, arith_succ, arith_zero]
      · rw [hgw]
        ring
    · rw [feed_accepted_multi W t hW' hfit]
      simp only [List.map_append, List.length_append, List.map_cons,
        List.length_cons]
      constructor
      · rw [hg, contLoop_starts, ← arith_succ, hgw, ← arith_append]
      · rw [contLoop_final, hgw]
        ring

theorem runFeed_starts (W : Nat) (ts : List Trace) :
    (runFeed W ts).1.map (fun f => f.frame_start)
        = arith W (runFeed W ts).1.length ∧
      (runFeed W ts).2 = W + FRAME_LENGTH * (runFeed W ts).1.length := by
  induction ts generalizing W with
  | nil => simp [runFeed, arith_zero]
  | cons t ts ih =>
    have hf := feed_starts W t
    have hr := ih (feed W t).watermark
    simp only [runFeed, List.map_append, List.length_append]
    constructor
    · rw [hf.1, hr.1, hf.2, ← arith_append]
    · rw [hr.2, hf.2]
      ring

/-- For an accepted trace, the emitted frames are the gap-fill frames
followed by at least one data-bearing frame whose payloads concatenate to
the trace data. -/
theorem feed_split (W : Nat) (t : Trace) (hW : W ≤ t.timestamp) :
    ∃ rest, (feed W t).frames = gapFrames t.timestamp W ++ rest ∧
      1 ≤ rest.length ∧ (rest.map (fun f => f.data)).flatten = t.data := by
  by_cases hfit : t.data.length + (t.timestamp - gapWatermark t.timestamp W)
      < FRAME_LENGTH
  · refine ⟨_, congrArg FeedResult.frames (feed_accepted_single W t hW hfit),
      ?_, ?_⟩
    · simp
    · simp
  · refine ⟨_, congrArg FeedResult.frames (feed_accepted_multi W t hW hfit),
      ?_, ?_⟩
    · simp
    · simp only [List.map_cons, List.flatten_cons]
      rw [contLoop_flatten]
      exact List.take_append_drop _ t.data

/-! ## The claims -/

/-- C1: for every trace accepted by the sequencer (`trace.timestamp ≥`
watermark when it is fed), the concatenation of the sample payloads of the
frames emitted for that trace, in emission order, equals the trace's
original sample sequence exactly — no reordering, duplication, or loss. -/
theorem coverage_exact (W : Nat) (t : Trace) (hW : W ≤ t.timestamp) :
    (((feed W t).frames).map (fun f => f.data)).flatten = t.data :=
  feed_flatten W t hW

theorem coverage_exact_witness :
    (0 : Nat) ≤ (Trace.mk 0 [1, 2, 3]).timestamp ∧
      (((feed 0 (Trace.mk 0 [1, 2, 3])).frames).map (fun f => f.data)).flatten
        = (Trace.mk 0 [1, 2, 3]).data :=
  ⟨Nat.zero_le _, coverage_exact 0 (Trace.mk 0 [1, 2, 3]) (Nat.zero_le _)⟩

/-- C2: over an entire run starting from watermark 0, the `frame_start`
values of all emitted frames (empty-fill, single-window, head and
continuation frames alike) form exactly the arithmetic sequence
`0, 512, 1024, …`: strictly increasing with constant step
`FRAME_LENGTH = 512`, no repeats and no gaps, each a non-negative multiple
of 512. -/
theorem contiguity (ts : List Trace) :
    (runFeed 0 ts).1.map (fun f => f.frame_start)
      = (List.range (runFeed 0 ts).1.length).map
          (fun i => FRAME_LENGTH * i) := by
  rw [(runFeed_starts 0 ts).1]
  unfold arith
  simp

/-- C3: feeding a trace whose timestamp is strictly below the watermark `W`
emits zero frames, leaves `W` unchanged, surfaces a diagnostic identifying
the dropped timestamp and the current watermark, and processing continues:
a subsequent trace with timestamp `≥ W` is processed exactly as if the
stale trace had never been fed, and is itself not dropped. -/
theorem rejection (W : Nat) (t t2 : Trace) (h : t.timestamp < W)
    (h2 : W ≤ t2.timestamp) :
    (feed W t).frames = [] ∧ (feed W t).watermark = W ∧
      (feed W t).dropped = some (t.timestamp, W) ∧
      (runFeed W [t, t2]).1 = (feed W t2).frames ∧
      (runFeed W [t, t2]).2 = (feed W t2).watermark ∧
      (feed W t2).dropped = none := by
  have hd := feed_drop W t h
  refine ⟨by rw [hd], by rw [hd], by rw [hd], ?_, ?_, ?_⟩
  · simp [runFeed, hd]
  · simp [runFeed, hd]
  · by_cases hfit : t2.data.length
        + (t2.timestamp - gapWatermark t2.timestamp W) < FRAME_LENGTH
    · rw [feed_accepted_single W t2 h2 hfit]
    · rw [feed_accepted_multi W t2 h2 hfit]

theorem rejection_witness :
    (Trace.mk 5 [1]).timestamp < 512 ∧ (512 : Nat) ≤ (Trace.mk 512 [2]).timestamp ∧
      ((feed 512 (Trace.mk 5 [1])).frames = [] ∧
        (feed 512 (Trace.mk 5 [1])).watermark = 512 ∧
        (feed 512 (Trace.mk 5 [1])).dropped = some ((Trace.mk 5 [1]).timestamp, 512) ∧
        (runFeed 512 [Trace.mk 5 [1], Trace.mk 512 [2]]).1
          = (feed 512 (Trace.mk 512 [2])).frames ∧
        (runFeed 512 [Trace.mk 5 [1], Trace.mk 512 [2]]).2
          = (feed 512 (Trace.mk 512 [2])).watermark ∧
        (feed 512 (Trace.mk 512 [2])).dropped = none) :=
  ⟨by norm_num, by norm_num,
    rejection 512 (Trace.mk 5 [1]) (Trace.mk 512 [2]) (by norm_num) (by norm_num)⟩

/-- C4: every emitted frame satisfies `data_offset < FRAME_LENGTH` and
`data_offset + data_size ≤ FRAME_LENGTH` (with `FRAME_LENGTH = 512`); in
particular, for an accepted trace the gap-filling loop establishes
`trace.timestamp - W < FRAME_LENGTH` before `data_offset` is computed. -/
theorem bounds_ok (W : Nat) (t : Trace) :
    (∀ f ∈ (feed W t).frames,
      f.data_offset < FRAME_LENGTH ∧
        f.data_offset + f.data_size ≤ FRAME_LENGTH) ∧
    (W ≤ t.timestamp →
      t.timestamp - gapWatermark t.timestamp W < FRAME_LENGTH) := by
  have hF : FRAME_LENGTH = 512 := rfl
  refine ⟨?_, fun _ => offset_lt W t⟩
  by_cases hW : t.timestamp < W
  · rw [feed_drop W t hW]
    simp
  · have hW' : W ≤ t.timestamp := by omega
    have hoff := offset_lt W t
    by_cases hfit : t.data.length
        + (t.timestamp - gapWatermark t.timestamp W) < FRAME_LENGTH
    · rw [feed_accepted_single W t hW' hfit]
      intro f hf
      rcases List.mem_append.mp hf with hf | hf
      · have hm := gapFrames_mem _ _ f hf
        omega
      · rcases List.mem_singleton.mp hf with rfl
        simp only [FRAME_LENGTH] at hoff hfit ⊢
        omega
    · rw [feed_accepted_multi W t hW' hfit]
      intro f hf
      rcases List.mem_append.mp hf with hf | hf
      · have hm := gapFrames_mem _ _ f hf
        omega
      · rcases List.mem_cons.mp hf with rfl | hf
        · simp only [FRAME_LENGTH] at hoff hfit ⊢
          omega
        · have hm := contLoop_mem _ _ _ f hf
          omega

theorem bounds_ok_witness :
    ((Frame.mk 0 3 0 [1, 2, 3]).data_offset < FRAME_LENGTH ∧
      (Frame.mk 0 3 0 [1, 2, 3]).data_offset
          + (Frame.mk 0 3 0 [1, 2, 3]).data_size ≤ FRAME_LENGTH) ∧
    ((0 : Nat) ≤ (Trace.mk 0 [1, 2, 3]).timestamp ∧
      (Trace.mk 0 [1, 2, 3]).timestamp
          - gapWatermark (Trace.mk 0 [1, 2, 3]).timestamp 0 < FRAME_LENGTH) :=
  ⟨(bounds_ok 0 (Trace.mk 0 [1, 2, 3])).1 _
      (by simp [feed, gapFrames, gapWatermark, FRAME_LENGTH]),
   Nat.zero_le _,
   (bounds_ok 0 (Trace.mk 0 [1, 2, 3])).2 (Nat.zero_le _)⟩

/-- C5: for every accepted trace that fits its window after gap filling
(`offset + len(samples) ≤ FRAME_LENGTH`, including the exact-boundary case
`offset + len = FRAME_LENGTH` and the zero-sample case), exactly one frame
is emitted for the trace, with `frame_start = W`, `data_offset = offset`,
`data_size = len(samples)` and the full trace payload in unchanged order,
after which the watermark advances by `FRAME_LENGTH`. -/
theorem single_window (W : Nat) (t : Trace) (hW : W ≤ t.timestamp)
    (hfit : t.timestamp - gapWatermark t.timestamp W + t.data.length
      ≤ FRAME_LENGTH) :
    (feed W t).frames
        = gapFrames t.timestamp W ++
          [{ frame_start := gapWatermark t.timestamp W,
             data_size := t.data.length,
             data_offset := t.timestamp - gapWatermark t.timestamp W,
             data := t.data }] ∧
      (feed W t).watermark = gapWatermark t.timestamp W + FRAME_LENGTH := by
  have hF : FRAME_LENGTH = 512 := rfl
  have hoff := offset_lt W t
  by_cases hlt : t.data.length + (t.timestamp - gapWatermark t.timestamp W)
      < FRAME_LENGTH
  · rw [feed_accepted_single W t hW hlt]
    have h1 : t.data.length % 2 ^ 32 = t.data.length := by omega
    have h2 : (t.timestamp - gapWatermark t.timestamp W) % 2 ^ 16
        = t.timestamp - gapWatermark t.timestamp W := by omega
    rw [h1, h2]
    exact ⟨rfl, rfl⟩
  · rw [feed_accepted_multi W t hW hlt]
    have h2 : (t.timestamp - gapWatermark t.timestamp W) % 2 ^ 16
        = t.timestamp - gapWatermark t.timestamp W := by omega
    have h3 : (FRAME_LENGTH - (t.timestamp - gapWatermark t.timestamp W))
        % 2 ^ 32 = t.data.length := by omega
    rw [h3, h2, contLoop, dif_neg (lt_irrefl t.data.length),
      List.take_length]
    exact ⟨rfl, rfl⟩

theorem single_window_witness :
    (0 : Nat) ≤ (Trace.mk 700 [1, 2]).timestamp ∧
      (Trace.mk 700 [1, 2]).timestamp
          - gapWatermark (Trace.mk 700 [1, 2]).timestamp 0
          + (Trace.mk 700 [1, 2]).data.length ≤ FRAME_LENGTH ∧
      ((feed 0 (Trace.mk 700 [1, 2])).frames
          = gapFrames (Trace.mk 700 [1, 2]).timestamp 0 ++
            [{ frame_start := gapWatermark (Trace.mk 700 [1, 2]).timestamp 0,
               data_size := (Trace.mk 700 [1, 2]).data.length,
               data_offset := (Trace.mk 700 [1, 2]).timestamp
                 - gapWatermark (Trace.mk 700 [1, 2]).timestamp 0,
               data := (Trace.mk 700 [1, 2]).data }] ∧
        (feed 0 (Trace.mk 700 [1, 2])).watermark
          = gapWatermark (Trace.mk 700 [1, 2]).timestamp 0 + FRAME_LENGTH) :=
  ⟨Nat.zero_le _, by simp [gapWatermark, FRAME_LENGTH],
    single_window 0 (Trace.mk 700 [1, 2]) (Nat.zero_le _)
      (by simp [gapWatermark, FRAME_LENGTH])⟩

/-- C6: processing any accepted trace strictly advances the watermark past
the trace's occupied windows: the new watermark is strictly greater than
`trace.timestamp` and at least `W + FRAME_LENGTH`; for any trace at all
(accepted or dropped) the watermark never decreases. -/
theorem watermark_monotone (W : Nat) (t : Trace) :
    W ≤ (feed W t).watermark ∧
      (W ≤ t.timestamp →
        t.timestamp < (feed W t).watermark ∧
          W + FRAME_LENGTH ≤ (feed W t).watermark) := by
  have hF : FRAME_LENGTH = 512 := rfl
  by_cases hW : t.timestamp < W
  · rw [feed_drop W t hW]
    exact ⟨Nat.le_refl W, fun h => absurd h (by omega)⟩
  · have hW' : W ≤ t.timestamp := by omega
    have hge := gapWatermark_ge t.timestamp W
    have hlt := gapWatermark_lt t.timestamp W
    by_cases hfit : t.data.length
        + (t.timestamp - gapWatermark t.timestamp W) < FRAME_LENGTH
    · rw [feed_accepted_single W t hW' hfit]
      simp only [FRAME_LENGTH] at *
      omega
    · rw [feed_accepted_multi W t hW' hfit]
      have hfin := contLoop_final t.data
        ((FRAME_LENGTH - (t.timestamp - gapWatermark t.timestamp W)) % 2 ^ 32)
        (gapWatermark t.timestamp W + FRAME_LENGTH)
      simp only [FRAME_LENGTH] at *
      omega

theorem watermark_monotone_witness :
    (0 : Nat) ≤ (feed 0 (Trace.mk 0 [])).watermark ∧
      ((0 : Nat) ≤ (Trace.mk 0 []).timestamp ∧
        (Trace.mk 0 []).timestamp < (feed 0 (Trace.mk 0 [])).watermark ∧
        (0 : Nat) + FRAME_LENGTH ≤ (feed 0 (Trace.mk 0 [])).watermark) :=
  ⟨(watermark_monotone 0 (Trace.mk 0 [])).1,
   Nat.zero_le _,
   (watermark_monotone 0 (Trace.mk 0 [])).2 (Nat.zero_le _)⟩

/-- C7: starting from watermark 0 with no prior traces, feeding one trace
with timestamp `t` produces exactly `t / FRAME_LENGTH` empty frames (each
with `data_size = 0` and `data_offset = 0`, at `frame_start = 0, 512, …`)
before the frame or frames holding that trace's data. -/
theorem empty_fill_count (t : Trace) :
    (feed 0 t).frames.take (t.timestamp / FRAME_LENGTH)
        = (List.range (t.timestamp / FRAME_LENGTH)).map
            (fun i => Frame.new (FRAME_LENGTH * i)) ∧
      t.timestamp / FRAME_LENGTH < (feed 0 t).frames.length ∧
      (((feed 0 t).frames.drop (t.timestamp / FRAME_LENGTH)).map
          (fun f => f.data)).flatten = t.data := by
  obtain ⟨rest, h1, h2, h3⟩ := feed_split 0 t (Nat.zero_le _)
  have hg : (gapFrames t.timestamp 0).length = t.timestamp / FRAME_LENGTH := by
    rw [gapFrames_length, Nat.sub_zero]
  rw [h1]
  refine ⟨?_, ?_, ?_⟩
  · rw [← hg, List.take_left, gapFrames_length, gapFrames_eq_map]
    simp only [Nat.sub_zero, Nat.zero_add]
  · rw [List.length_append, ← hg]
    omega
  · rw [← hg, List.drop_left]
    exact h3

theorem readSamples_none (n : Nat) (bytes : List Nat) :
    readSamples n bytes = none ↔ bytes.length < 2 * n := by
  induction n generalizing bytes with
  | zero => simp [readSamples]
  | succ n ih =>
    have h := ih (bytes.drop 2)
    rw [List.length_drop] at h
    rw [readSamples, read_exact]
    by_cases h2 : bytes.length < 2
    · rw [if_pos h2]
      constructor
      · intro _
        omega
      · intro _
        rfl
    · rw [if_neg h2]
      simp only []
      cases hres : readSamples n (bytes.drop 2) with
      | none =>
        rw [hres] at h
        simp only [true_iff] at h
        constructor
        · intro _
          omega
        · intro _
          rfl
      | some p =>
        rw [hres] at h
        simp only [reduceCtorEq, false_iff, Nat.not_lt] at h
        simp only [reduceCtorEq, false_iff, Nat.not_lt]
        omega

/-- C8: the trace reader signals end-of-stream (returns `none`) exactly
when the byte stream holds fewer bytes than one full record requires: the
clean-exhaustion case and all three truncation positions (mid-timestamp,
mid-count, mid-sample) are treated identically, with no distinct error
reported. -/
theorem reader_truncation (bytes : List Nat) :
    read_next_trace bytes = none ↔
      bytes.length < 12 + 2 * leValue ((bytes.drop 8).take 4) := by
  rw [read_next_trace, read_exact]
  by_cases h8 : bytes.length < 8
  · rw [if_pos h8]
    constructor
    · intro _
      have hz := Nat.zero_le (2 * leValue ((bytes.drop 8).take 4))
      omega
    · intro _
      rfl
  · rw [if_neg h8]
    simp only []
    rw [read_exact]
    by_cases h4 : (bytes.drop 8).length < 4
    · rw [if_pos h4]
      rw [List.length_drop] at h4
      constructor
      · intro _
        have hz := Nat.zero_le (2 * leValue ((bytes.drop 8).take 4))
        omega
      · intro _
        rfl
    · rw [if_neg h4]
      rw [List.length_drop] at h4
      simp only []
      cases hres : readSamples (leValue ((bytes.drop 8).take 4))
          ((bytes.drop 8).drop 4) with
      | none =>
        have h := (readSamples_none _ _).mp hres
        rw [List.length_drop, List.length_drop] at h
        constructor
        · intro _
          omega
        · intro _
          rfl
      | some p =>
        have h : ¬ ((bytes.drop 8).drop 4).length
            < 2 * leValue ((bytes.drop 8).take 4) := by
          rw [← readSamples_none] at *
          rw [hres]
          simp
        rw [List.length_drop, List.length_drop] at h
        simp only [reduceCtorEq, false_iff, Nat.not_lt]
        omega

/-- C9: for every finite accepted trace processing terminates: the
continuation loop performs exactly
`⌈(remaining samples) / FRAME_LENGTH⌉` iterations — a finite number — and
every continuation frame carries `1 ≤ data_size ≤ FRAME_LENGTH`, so the
cursor strictly increases until it reaches the end of the trace. -/
theorem continuation_terminates (data : List Nat) (cursor W : Nat) :
    (contLoop data cursor W).1.length
        = (data.length - cursor + (FRAME_LENGTH - 1)) / FRAME_LENGTH ∧
      ∀ f ∈ (contLoop data cursor W).1,
        1 ≤ f.data_size ∧ f.data_size ≤ FRAME_LENGTH :=
  ⟨contLoop_length data cursor W,
   fun f hf => ⟨(contLoop_mem data cursor W f hf).2.1,
     (contLoop_mem data cursor W f hf).2.2.1⟩⟩

theorem continuation_terminates_witness :
    Frame.mk 0 3 0 [1, 2, 3] ∈ (contLoop [1, 2, 3] 0 0).1 ∧
      (1 ≤ (Frame.mk 0 3 0 [1, 2, 3]).data_size ∧
        (Frame.mk 0 3 0 [1, 2, 3]).data_size ≤ FRAME_LENGTH) :=
  ⟨by simp [contLoop, FRAME_LENGTH],
   (continuation_terminates [1, 2, 3] 0 0).2 _
     (by simp [contLoop, FRAME_LENGTH])⟩

/-- C10: for every accepted trace entering the multi-window branch
(`offset + len ≥ FRAME_LENGTH`), the slice and cast operations are
well-defined: the `u16` cast of `data_offset` and the `u32` cast of
`FRAME_LENGTH - data_offset` lose no information (both values are below
512), the head slice bound `FRAME_LENGTH - offset` does not exceed the
trace length, and every continuation frame's slice lies fully inside the
trace (its materialised data has exactly `data_size` samples). -/
theorem slice_cast_safety (W : Nat) (t : Trace) (hW : W ≤ t.timestamp)
    (hbig : ¬ t.data.length + (t.timestamp - gapWatermark t.timestamp W)
      < FRAME_LENGTH) :
    (t.timestamp - gapWatermark t.timestamp W) % 2 ^ 16
        = t.timestamp - gapWatermark t.timestamp W ∧
      (FRAME_LENGTH - (t.timestamp - gapWatermark t.timestamp W)) % 2 ^ 32
        = FRAME_LENGTH - (t.timestamp - gapWatermark t.timestamp W) ∧
      FRAME_LENGTH - (t.timestamp - gapWatermark t.timestamp W)
        ≤ t.data.length ∧
      ∀ f ∈ (contLoop t.data
          ((FRAME_LENGTH - (t.timestamp - gapWatermark t.timestamp W))
            % 2 ^ 32)
          (gapWatermark t.timestamp W + FRAME_LENGTH)).1,
        f.data.length = f.data_size := by
  have hF : FRAME_LENGTH = 512 := rfl
  have hoff := offset_lt W t
  exact ⟨by omega, by omega, by omega,
    fun f hf => (contLoop_mem _ _ _ f hf).2.2.2⟩

theorem slice_cast_safety_witness :
    (0 : Nat) ≤ (Trace.mk 510 [1, 2, 3, 4]).timestamp ∧
      ¬ (Trace.mk 510 [1, 2, 3, 4]).data.length
          + ((Trace.mk 510 [1, 2, 3, 4]).timestamp
            - gapWatermark (Trace.mk 510 [1, 2, 3, 4]).timestamp 0)
          < FRAME_LENGTH ∧
      ((Trace.mk 510 [1, 2, 3, 4]).timestamp
            - gapWatermark (Trace.mk 510 [1, 2, 3, 4]).timestamp 0)
          % 2 ^ 16
        = (Trace.mk 510 [1, 2, 3, 4]).timestamp
            - gapWatermark (Trace.mk 510 [1, 2, 3, 4]).timestamp 0 :=
  ⟨Nat.zero_le _, by simp [gapWatermark, FRAME_LENGTH],
   (slice_cast_safety 0 (Trace.mk 510 [1, 2, 3, 4]) (Nat.zero_le _)
     (by simp [gapWatermark, FRAME_LENGTH])).1⟩

end Framizer
